import Mathlib

set_option maxRecDepth 100000

/-!
Shallow embedding of the peer-to-peer networking and trust subsystem of the
cursedboard repository (src/src/protocol.rs, src/src/peer.rs, src/src/trust.rs,
src/src/discovery.rs, src/src/main.rs), together with theorems settling the
frozen claims about it.

Bytes are modelled as `Nat` values (`< 256` where the Rust types guarantee it),
byte strings as `List Nat`.  Machine arithmetic on `u32` words is `Nat`
arithmetic reduced modulo `2 ^ 32`.
-/

/-! ## SHA-256 (FIPS 180-4), as used by the `sha2` crate

`compute_auth_response` in src/src/protocol.rs is HMAC-SHA256 via the `hmac`
and `sha2` crates; we embed the full primitive so that the auth functions are
executable. -/

/-- Reduce to a 32-bit word. -/
def w32 (x : Nat) : Nat := x % 4294967296

/-- Rotate a 32-bit word right by `n` bits. -/
def rotr32 (n x : Nat) : Nat :=
  w32 ((x >>> n) ||| (x <<< (32 - n)))

def bigSigma0 (x : Nat) : Nat :=
  rotr32 2 x ^^^ rotr32 13 x ^^^ rotr32 22 x

def bigSigma1 (x : Nat) : Nat :=
  rotr32 6 x ^^^ rotr32 11 x ^^^ rotr32 25 x

def smallSigma0 (x : Nat) : Nat :=
  rotr32 7 x ^^^ rotr32 18 x ^^^ (x >>> 3)

def smallSigma1 (x : Nat) : Nat :=
  rotr32 17 x ^^^ rotr32 19 x ^^^ (x >>> 10)

def chf (x y z : Nat) : Nat :=
  (x &&& y) ^^^ ((x ^^^ 4294967295) &&& z)

def majf (x y z : Nat) : Nat :=
  (x &&& y) ^^^ (x &&& z) ^^^ (y &&& z)

/-- The 64 SHA-256 round constants, in decimal. -/
def sha256K : List Nat :=
  [1116352408, 1899447441, 3049323471, 3921009573,
   961987163, 1508970993, 2453635748, 2870763221,
   3624381080, 310598401, 607225278, 1426881987,
   1925078388, 2162078206, 2614888103, 3248222580,
   3835390401, 4022224774, 264347078, 604807628,
   770255983, 1249150122, 1555081692, 1996064986,
   2554220882, 2821834349, 2952996808, 3210313671,
   3336571891, 3584528711, 113926993, 338241895,
   666307205, 773529912, 1294757372, 1396182291,
   1695183700, 1986661051, 2177026350, 2456956037,
   2730485921, 2820302411, 3259730800, 3345764771,
   3516065817, 3600352804, 4094571909, 275423344,
   430227734, 506948616, 659060556, 883997877,
   958139571, 1322822218, 1537002063, 1747873779,
   1955562222, 2024104815, 2227730452, 2361852424,
   2428436474, 2756734187, 3204031479, 3329325298]

/-- Working state: eight 32-bit words. -/
structure Hash8 where
  a : Nat
  b : Nat
  c : Nat
  d : Nat
  e : Nat
  f : Nat
  g : Nat
  h : Nat

def sha256Init : Hash8 :=
  ⟨1779033703, 3144134277, 1013904242, 2773480762,
   1359893119, 2600822924, 528734635, 1541459225⟩

/-- Extend the message schedule; `acc` holds already-computed words newest first. -/
def scheduleAux : Nat → List Nat → List Nat
  | 0, acc => acc
  | n + 1, acc =>
      scheduleAux n
        (w32 (smallSigma1 (acc.getD 1 0) + acc.getD 6 0 + smallSigma0 (acc.getD 14 0) + acc.getD 15 0) :: acc)

/-- The 64-word message schedule of one 16-word block. -/
def schedule (block : List Nat) : List Nat :=
  (scheduleAux 48 block.reverse).reverse

/-- One SHA-256 round on the working state, given `K[i] + W[i]`. -/
def sha256Round (st : Hash8) (kw : Nat) : Hash8 :=
  let t1 := w32 (st.h + bigSigma1 st.e + chf st.e st.f st.g + kw)
  let t2 := w32 (bigSigma0 st.a + majf st.a st.b st.c)
  ⟨w32 (t1 + t2), st.a, st.b, st.c, w32 (st.d + t1), st.e, st.f, st.g⟩

def sha256Rounds : List Nat → Hash8 → Hash8
  | [], st => st
  | kw :: rest, st => sha256Rounds rest (sha256Round st kw)

/-- Compress one 16-word block into the state. -/
def compress (st : Hash8) (block : List Nat) : Hash8 :=
  let kws := List.zipWith (fun k w => w32 (k + w)) sha256K (schedule block)
  let r := sha256Rounds kws st
  ⟨w32 (st.a + r.a), w32 (st.b + r.b), w32 (st.c + r.c), w32 (st.d + r.d),
   w32 (st.e + r.e), w32 (st.f + r.f), w32 (st.g + r.g), w32 (st.h + r.h)⟩

/-- Group big-endian bytes into 32-bit words, four at a time. -/
def bytesToWords : List Nat → List Nat
  | b0 :: b1 :: b2 :: b3 :: rest =>
      (b0 * 16777216 + b1 * 65536 + b2 * 256 + b3) :: bytesToWords rest
  | _ => []

/-- Split a word list into 16-word blocks (fuel-driven structural recursion). -/
def toBlocksAux : Nat → List Nat → List (List Nat)
  | 0, _ => []
  | _, [] => []
  | fuel + 1, ws => ws.take 16 :: toBlocksAux fuel (ws.drop 16)

/-- The 8-byte big-endian encoding of the bit length. -/
def bitLenBytes (n : Nat) : List Nat :=
  [(n >>> 56) &&& 255, (n >>> 48) &&& 255, (n >>> 40) &&& 255, (n >>> 32) &&& 255,
   (n >>> 24) &&& 255, (n >>> 16) &&& 255, (n >>> 8) &&& 255, n &&& 255]

/-- SHA-256 padding: `0x80`, zeros to 56 mod 64, then the 64-bit bit length. -/
def padMessage (msg : List Nat) : List Nat :=
  let l := msg.length
  msg ++ [128] ++ List.replicate ((64 - ((l + 9) % 64)) % 64) 0 ++ bitLenBytes (8 * l)

def hashBlocks : List (List Nat) → Hash8 → Hash8
  | [], st => st
  | b :: rest, st => hashBlocks rest (compress st b)

/-- The four big-endian bytes of a 32-bit word. -/
def wordBytes (w : Nat) : List Nat :=
  [(w >>> 24) &&& 255, (w >>> 16) &&& 255, (w >>> 8) &&& 255, w &&& 255]

/-- SHA-256 of a byte string, as a 32-byte string. -/
def sha256 (msg : List Nat) : List Nat :=
  let ws := bytesToWords (padMessage msg)
  let st := hashBlocks (toBlocksAux ws.length ws) sha256Init
  wordBytes st.a ++ wordBytes st.b ++ wordBytes st.c ++ wordBytes st.d ++
  wordBytes st.e ++ wordBytes st.f ++ wordBytes st.g ++ wordBytes st.h

/-! ## HMAC-SHA256 (RFC 2104), as used by the `hmac` crate -/

/-- The 64-byte HMAC key block: long keys are hashed, short keys zero-padded. -/
def hmacKeyBlock (key : List Nat) : List Nat :=
  let k := if 64 < key.length then sha256 key else key
  k ++ List.replicate (64 - k.length) 0

/-- HMAC-SHA256 of `msg` under `key`. -/
def hmacSha256 (key msg : List Nat) : List Nat :=
  let kb := hmacKeyBlock key
  sha256 ((kb.map (fun b => b ^^^ 92)) ++ sha256 ((kb.map (fun b => b ^^^ 54)) ++ msg))

/-- SHA-256 of the empty string (FIPS 180-4 test vector). -/
theorem sha256_empty_vector :
    sha256 [] =
      [227, 176, 196, 66, 152, 252, 28, 20, 154, 251, 244, 200, 153, 111, 185, 36,
       39, 174, 65, 228, 100, 155, 147, 76, 164, 149, 153, 27, 120, 82, 184, 85] := by
  decide

/-- HMAC-SHA256 test vector (RFC 4231, test case 1): 20 bytes of `0x0b` as key,
the ASCII bytes of the string Hi There as message. -/
theorem hmacSha256_rfc4231_vector :
    hmacSha256 (List.replicate 20 11) [72, 105, 32, 84, 104, 101, 114, 101] =
      [176, 52, 76, 97, 216, 219, 56, 83, 92, 168, 175, 206, 175, 11, 241, 43,
       136, 29, 194, 0, 201, 131, 61, 167, 38, 233, 55, 108, 46, 50, 207, 247] := by
  decide

/-! ## Identities

`uuid::Uuid` is 16 raw bytes; its serde form (human-readable, as in TOML) is
the hyphenated lowercase hex string. -/

/-- A UUID: 16 raw bytes. -/
structure Uuid where
  bytes : List Nat
  deriving DecidableEq, Repr

/-- Lowercase hex digit of a value below 16. -/
def hexDigit (n : Nat) : Char :=
  if n < 10 then Char.ofNat (48 + n) else Char.ofNat (87 + n)

/-- Two lowercase hex digits of a byte. -/
def byteHex (b : Nat) : List Char :=
  [hexDigit (b / 16), hexDigit (b % 16)]

/-- The hyphenated lowercase-hex rendering of a UUID (8-4-4-4-12 groups). -/
def uuidToString (u : Uuid) : String :=
  let hx := u.bytes.flatMap byteHex
  ⟨hx.take 8 ++ [Char.ofNat 45] ++ (hx.drop 8).take 4 ++ [Char.ofNat 45] ++
   (hx.drop 12).take 4 ++ [Char.ofNat 45] ++ (hx.drop 16).take 4 ++ [Char.ofNat 45] ++
   hx.drop 20⟩

/-! ## The message set (src/src/protocol.rs)

`enum Message` with the five wire variants.  `[u8; 32]` fields are byte lists
(decoded values always have length 32), `u64` timestamps are `Nat`. -/

inductive Message
  | Hello (id : Uuid) (name : String)
  | Auth (challenge : List Nat) (response : List Nat)
  | Clipboard (content : String) (timestamp : Nat)
  | Ping
  | Pong
  deriving DecidableEq, Repr

inductive ProtocolError
  | InvalidLength
  | InvalidFormat
  | AuthFailed
  | Io
  deriving DecidableEq, Repr

/-! ## The TOML body encoding

`Message::encode` serializes the message with `toml::to_string` and prepends a
`u32` big-endian length.  The toml crate serializes through the serde data
model into TOML values: a struct variant becomes a one-key table, a unit
variant becomes the bare variant-name string, a `u64` must fit in TOML's `i64`
integers, byte arrays become integer arrays.  `toml::to_string` then requires
the root value to be a table (a TOML document is a table); any other root is
an unsupported-type error, which `encode`'s
`expect("message serialization should not fail")` turns into a panic.  A
panic is modelled as `none`. -/

inductive TomlVal
  | vStr (s : String)
  | vInt (n : Int)
  | vArr (xs : List TomlVal)
  | vTable (kvs : List (String × TomlVal))
  deriving Repr

/-- A `u64` serialized into TOML's `i64` integers; too-large values error. -/
def serU64 (n : Nat) : Option TomlVal :=
  if n < 9223372036854775808 then some (.vInt n) else none

/-- The serde serialization of a `Message` into the toml value domain. -/
def serMessage : Message → Option TomlVal
  | .Hello id name =>
      some (.vTable [("Hello",
        .vTable [("id", .vStr (uuidToString id)), ("name", .vStr name)])])
  | .Auth c r =>
      some (.vTable [("Auth",
        .vTable [("challenge", .vArr (c.map fun b => .vInt b)),
                 ("response", .vArr (r.map fun b => .vInt b))])])
  | .Clipboard content ts =>
      (serU64 ts).map fun t =>
        .vTable [("Clipboard", .vTable [("content", .vStr content), ("timestamp", t)])]
  | .Ping => some (.vStr "Ping")
  | .Pong => some (.vStr "Pong")

/-- Escape a character for a TOML basic string. -/
def escapeChar (c : Char) : List Char :=
  if c = Char.ofNat 34 ∨ c = Char.ofNat 92 then [Char.ofNat 92, c] else [c]

mutual

/-- Render a TOML value in inline position. -/
def renderVal : TomlVal → String
  | .vStr s => ⟨Char.ofNat 34 :: s.data.flatMap escapeChar ++ [Char.ofNat 34]⟩
  | .vInt n => toString n
  | .vArr xs => "[" ++ renderSeq xs ++ "]"
  | .vTable kvs => "\x7b " ++ renderKVs kvs ++ " \x7d"

/-- Render an array's elements, comma separated. -/
def renderSeq : List TomlVal → String
  | [] => ""
  | [x] => renderVal x
  | x :: y :: xs => renderVal x ++ ", " ++ renderSeq (y :: xs)

/-- Render an inline table's bindings, comma separated. -/
def renderKVs : List (String × TomlVal) → String
  | [] => ""
  | [(k, v)] => k ++ " = " ++ renderVal v
  | (k, v) :: kv :: kvs => k ++ " = " ++ renderVal v ++ ", " ++ renderKVs (kv :: kvs)

end

/-- Render a root table as a TOML document; sub-tables become sections. -/
def renderDoc (kvs : List (String × TomlVal)) : String :=
  String.join (kvs.map fun kv =>
    match kv.2 with
    | .vTable fields =>
        "[" ++ kv.1 ++ "]\n" ++
          String.join (fields.map fun f => f.1 ++ " = " ++ renderVal f.2 ++ "\n")
    | v => kv.1 ++ " = " ++ renderVal v ++ "\n")

/-- The UTF-8 bytes of a string. -/
def strBytes (s : String) : List Nat :=
  s.toUTF8.toList.map fun b => b.toNat

/-- `toml::to_string`: the root must be a table, otherwise error. -/
def tomlToString : TomlVal → Option String
  | .vTable kvs => some (renderDoc kvs)
  | _ => none

/-- `Message::encode` (src/src/protocol.rs lines 31-38): TOML body prefixed by
its `u32` big-endian byte length.  `none` models the `expect` panic on a
serialization error. -/
def Message.encode (m : Message) : Option (List Nat) :=
  match serMessage m with
  | none => none
  | some v =>
      match tomlToString v with
      | none => none
      | some payload =>
          let body := strBytes payload
          some (wordBytes (w32 body.length) ++ body)

/-! ## Authentication primitive (src/src/protocol.rs lines 54-75)

The PSK is modelled by its UTF-8 bytes. -/

/-- `compute_auth_response`: HMAC-SHA256 of the challenge under the PSK. -/
def compute_auth_response (psk challenge : List Nat) : List Nat :=
  hmacSha256 psk challenge

/-- `constant_time_eq`: OR-accumulate the XOR of each byte pair, compare to 0. -/
def constant_time_eq (a b : List Nat) : Bool :=
  ((a.zip b).foldl (fun r p => r ||| (p.1 ^^^ p.2)) 0) == 0

/-- `verify_auth_response`: recompute and compare in constant time. -/
def verify_auth_response (psk challenge response : List Nat) : Bool :=
  constant_time_eq (compute_auth_response psk challenge) response

/-! ## PeerConnection::recv, framing layer (src/src/peer.rs lines 124-134)

The TCP stream is modelled as the list of bytes still to be read.
`read_exact` returns the requested bytes or fails with an I/O error when the
stream ends first; `recv` reads 4 length bytes, allocates a `4 + len` buffer,
reads `len` body bytes into it and hands the buffer to `Message::decode`.  The
body decoding is not needed by any claim, so `recvFrame` stops at the
reassembled buffer. -/

/-- `read_exact`: exactly `n` bytes, or an I/O error (EOF) when short. -/
def readExact (n : Nat) (input : List Nat) : Option (List Nat × List Nat) :=
  if n ≤ input.length then some (input.take n, input.drop n) else none

/-- A `u32` from 4 big-endian bytes. -/
def beU32 (b : List Nat) : Nat :=
  b.getD 0 0 * 16777216 + b.getD 1 0 * 65536 + b.getD 2 0 * 256 + b.getD 3 0

/-- `recv` up to the `Message::decode` call: no length maximum is checked
anywhere.  Returns the reassembled `length-prefix ++ body` buffer and the
unread remainder of the stream. -/
def recvFrame (input : List Nat) : Except ProtocolError (List Nat × List Nat) :=
  match readExact 4 input with
  | none => .error .Io
  | some (lenBuf, rest) =>
      match readExact (beU32 lenBuf) rest with
      | none => .error .Io
      | some (body, rest2) => .ok (lenBuf ++ body, rest2)

/-- The size of the buffer `recv` allocates right after parsing the length
(line 129: `vec![0u8; 4 + len]`), for any declared length. -/
def recvAllocSize (input : List Nat) : Option Nat :=
  (readExact 4 input).map fun p => 4 + beU32 p.1

/-! ## The handshake (src/src/peer.rs lines 42-116)

Modelled at the decoded-frame level: `incoming` is the sequence of frames the
peer delivers, in order; the sent frames are returned alongside the result.
An exhausted `incoming` models the stream ending (an I/O error from `recv`). -/

/-- `PeerConnection::handshake_outbound`: send Hello, expect Hello, send the
challenge, expect Auth and verify its response against the PSK. -/
def handshake_outbound (ourId : Uuid) (ourName : String) (psk : List Nat)
    (challenge : List Nat) (incoming : List Message) :
    Except ProtocolError ((Uuid × String) × List Message) :=
  match incoming with
  | [] => .error .Io
  | first :: rest =>
      match first with
      | .Hello tid tname =>
          match rest with
          | [] => .error .Io
          | second :: _ =>
              match second with
              | .Auth _ response =>
                  if verify_auth_response psk challenge response then
                    .ok ((tid, tname),
                      [Message.Hello ourId ourName,
                       Message.Auth challenge (List.replicate 32 0)])
                  else .error .AuthFailed
              | _ => .error .AuthFailed
      | _ => .error .AuthFailed

/-- `PeerConnection::handshake_inbound`: expect Hello, send Hello, expect an
Auth carrying a challenge, reply with the computed response.  No
verification of anything the remote sent is performed. -/
def handshake_inbound (ourId : Uuid) (ourName : String) (psk : List Nat)
    (incoming : List Message) :
    Except ProtocolError ((Uuid × String) × List Message) :=
  match incoming with
  | [] => .error .Io
  | first :: rest =>
      match first with
      | .Hello tid tname =>
          match rest with
          | [] => .error .Io
          | second :: _ =>
              match second with
              | .Auth challenge _ =>
                  .ok ((tid, tname),
                    [Message.Hello ourId ourName,
                     Message.Auth (List.replicate 32 0)
                       (compute_auth_response psk challenge)])
              | _ => .error .AuthFailed
      | _ => .error .AuthFailed

/-! ## The steady-state loop (src/src/peer.rs lines 158-189) -/

/-- What one arm of `run`'s select does with an inbound frame result. -/
inductive RunStep
  | emitClipboard (content : String) (timestamp : Nat)
  | sentPong
  | ignored
  | panicked
  | disconnected
  deriving DecidableEq, Repr

/-- One iteration of `PeerConnection::run` on an inbound frame: Clipboard is
emitted upward, Ping is answered through `send(&Message::Pong)` (whose
`Message::encode` call panics when serialization fails), Pong and the
catch-all arm are ignored, and a receive error breaks the loop (the task then
emits Disconnected). -/
def handleInbound : Except ProtocolError Message → RunStep
  | .ok (.Clipboard content timestamp) => .emitClipboard content timestamp
  | .ok .Ping =>
      match Message.encode .Pong with
      | some _ => .sentPong
      | none => .panicked
  | .ok .Pong => .ignored
  | .ok _ => .ignored
  | .error _ => .disconnected

/-! ## The trust store (src/src/trust.rs lines 17-75)

`HashMap<Uuid, TrustedPeer>` is modelled as an association list with unique
keys; `SystemTime::now` is an explicit `now` argument. -/

structure TrustedPeer where
  name : String
  first_seen : Nat
  deriving DecidableEq, Repr

structure TrustStore where
  peers : List (Uuid × TrustedPeer)
  deriving DecidableEq, Repr

/-- `TrustStore::is_trusted`: key membership. -/
def TrustStore.is_trusted (s : TrustStore) (id : Uuid) : Bool :=
  s.peers.any fun p => p.1 == id

/-- `TrustStore::trust`: insert with the current timestamp only when the id
is absent. -/
def TrustStore.trust (s : TrustStore) (id : Uuid) (name : String) (now : Nat) :
    TrustStore :=
  if s.is_trusted id then s else ⟨s.peers ++ [(id, ⟨name, now⟩)]⟩

/-- `TrustStore::get`. -/
def TrustStore.get (s : TrustStore) (id : Uuid) : Option TrustedPeer :=
  (s.peers.find? fun p => p.1 == id).map Prod.snd

/-! ## The connection manager (src/src/main.rs lines 63-157)

The registry is `HashMap<Uuid, mpsc::Sender<(String, u64)>>`; a connection's
sender/task is abstracted to a numeric handle.  Both the accept task (lines
81-102) and the dial task (lines 134-155) run the same block after a
successful handshake: trust the peer when unknown, save, and insert the
connection into the registry. -/

abbrev ConnId := Nat

/-- `HashMap::insert`: replace an existing binding, otherwise add one. -/
def hmInsert (reg : List (Uuid × ConnId)) (id : Uuid) (c : ConnId) :
    List (Uuid × ConnId) :=
  if reg.any fun p => p.1 == id then
    reg.map fun p => if p.1 == id then (id, c) else p
  else reg ++ [(id, c)]

/-- `HashMap::contains_key`. -/
def hmContains (reg : List (Uuid × ConnId)) (id : Uuid) : Bool :=
  reg.any fun p => p.1 == id

/-- `HashMap::get`-style lookup of the installed connection. -/
def lookupConn (reg : List (Uuid × ConnId)) (id : Uuid) : Option ConnId :=
  (reg.find? fun p => p.1 == id).map Prod.snd

/-- The manager state shared by the accept and dial tasks. -/
structure ManagerState where
  trust : TrustStore
  registry : List (Uuid × ConnId)
  deriving DecidableEq, Repr

/-- The block both tasks run after a successful handshake (src/src/main.rs
lines 82-97 and 135-150): trust the peer when not yet trusted (and save),
insert the connection, spawn `run`.  Returns the new state, whether the
connection was installed, and the connections the manager closed (none: a
replaced connection's task is left running). -/
def postHandshakeUpdate (st : ManagerState) (peerId : Uuid) (peerName : String)
    (now : Nat) (conn : ConnId) : ManagerState × Bool × List ConnId :=
  let trust2 := if st.trust.is_trusted peerId then st.trust
                else st.trust.trust peerId peerName now
  (⟨trust2, hmInsert st.registry peerId conn⟩, true, [])

/-- A task's continuation on the handshake result: the success block above,
or (lines 99-101 and 152-154) a warning that leaves the state untouched. -/
def afterHandshake (st : ManagerState)
    (result : Except ProtocolError ((Uuid × String) × List Message))
    (now : Nat) (conn : ConnId) : ManagerState × Bool × List ConnId :=
  match result with
  | .ok ((pid, pname), _) => postHandshakeUpdate st pid pname now conn
  | .error _ => (st, false, [])

/-- The dial task's gate for a discovered peer (src/src/main.rs lines
122-124): skip only when the registry already holds the id; the trust store
plays no part and no pairing mode exists. -/
def dialDecision (st : ManagerState) (peerId : Uuid) : Bool :=
  !(hmContains st.registry peerId)

/-! ## Discovery (src/src/discovery.rs lines 63-117) -/

/-- A resolved mDNS service: TXT properties, resolved addresses (opaque),
advertised port and the service full name. -/
structure ServiceInfo where
  properties : List (String × String)
  addresses : List String
  port : Nat
  fullname : String
  deriving Repr

/-- `discovery::Peer`. -/
structure Peer where
  id : Uuid
  name : String
  addr : String × Nat
  deriving DecidableEq, Repr

/-- One hex digit's value. -/
def hexVal (c : Char) : Option Nat :=
  if 48 ≤ c.toNat ∧ c.toNat ≤ 57 then some (c.toNat - 48)
  else if 97 ≤ c.toNat ∧ c.toNat ≤ 102 then some (c.toNat - 87)
  else if 65 ≤ c.toNat ∧ c.toNat ≤ 70 then some (c.toNat - 55)
  else none

/-- Hex digit pairs to bytes. -/
def hexPairsToBytes : List Char → Option (List Nat)
  | [] => some []
  | c1 :: c2 :: rest => do
      let hi ← hexVal c1
      let lo ← hexVal c2
      let bs ← hexPairsToBytes rest
      pure ((16 * hi + lo) :: bs)
  | _ => none

/-- `str::parse::<Uuid>` on its common forms: the hyphenated 8-4-4-4-12
rendering (hyphens required at positions 8, 13, 18, 23) or 32 plain hex
digits. -/
def parseUuid (s : String) : Option Uuid :=
  let cs := s.data
  if cs.length = 36 then
    if cs.getD 8 (Char.ofNat 0) = Char.ofNat 45 ∧ cs.getD 13 (Char.ofNat 0) = Char.ofNat 45 ∧
        cs.getD 18 (Char.ofNat 0) = Char.ofNat 45 ∧ cs.getD 23 (Char.ofNat 0) = Char.ofNat 45 then
      (hexPairsToBytes (cs.take 8 ++ ((cs.drop 9).take 4) ++ ((cs.drop 14).take 4) ++
        ((cs.drop 19).take 4) ++ cs.drop 24)).map Uuid.mk
    else none
  else if cs.length = 32 then (hexPairsToBytes cs).map Uuid.mk
  else none

/-- The first segment of a string split on the underscore character, as
produced by split followed by next with its unwrap_or fallback (the first
segment always exists, so the fallback is unreachable). -/
def firstSegment (s : String) : String :=
  ⟨s.data.takeWhile fun c => !(c == Char.ofNat 95)⟩

/-- TXT property lookup. -/
def lookupProp (props : List (String × String)) (key : String) : Option String :=
  (props.find? fun p => p.1 == key).map Prod.snd

/-- The browse loop's handling of one `ServiceResolved` event (src/src/
discovery.rs lines 73-104): parse the id TXT record (drop the event when
missing or unparseable), drop when it is our own id or already seen, drop
when no address resolved, otherwise mark seen and emit the peer. -/
def handleResolved (ownId : Uuid) (seen : List Uuid) (info : ServiceInfo) :
    List Uuid × Option Peer :=
  match lookupProp info.properties "id" with
  | none => (seen, none)
  | some s =>
      match parseUuid s with
      | none => (seen, none)
      | some id =>
          if id == ownId || seen.contains id then (seen, none)
          else
            match info.addresses with
            | [] => (seen, none)
            | ip :: _ =>
                let name := firstSegment info.fullname
                (id :: seen, some ⟨id, name, (ip, info.port)⟩)

/-! ## Concrete instances used by witnesses and counterexamples -/

/-- A 16-byte UUID ending in 1. -/
def u1 : Uuid := ⟨List.replicate 15 0 ++ [1]⟩

/-- A 16-byte UUID ending in 2; `u1.bytes < u2.bytes` as raw bytes. -/
def u2 : Uuid := ⟨List.replicate 15 0 ++ [2]⟩

/-- A 16-byte UUID ending in 3. -/
def u3 : Uuid := ⟨List.replicate 15 0 ++ [3]⟩

/-- A trust store containing only `u3`. -/
def storeOther : TrustStore := ⟨[(u3, ⟨"c", 1⟩)]⟩

/-- A trust store containing only `u1`. -/
def storeHasU1 : TrustStore := ⟨[(u1, ⟨"a", 3⟩)]⟩

/-- The all-zero 32-byte array. -/
def zeros32 : List Nat := List.replicate 32 0

/-- A resolved service event advertising `u1` at an address. -/
def infoGood : ServiceInfo :=
  ⟨[("id", "00000000-0000-0000-0000-000000000001")], ["10.0.0.5"], 42069,
   "cursedboard_00000000-0000-0000-0000-000000000001._cursedboard._tcp.local."⟩

/-- The peer `handleResolved` emits for `infoGood`. -/
def peerGood : Peer := ⟨u1, "cursedboard", ("10.0.0.5", 42069)⟩

/-! ## Helper lemmas -/

theorem nat_lor_eq_zero {a b : Nat} : a ||| b = 0 ↔ a = 0 ∧ b = 0 := by
  constructor
  · intro h
    refine ⟨Nat.eq_of_testBit_eq fun i => ?_, Nat.eq_of_testBit_eq fun i => ?_⟩ <;>
      have hi := congrArg (fun x => Nat.testBit x i) h <;>
      simp [Nat.testBit_lor] at hi <;> simp [hi]
  · rintro ⟨rfl, rfl⟩; simp

theorem foldl_lor_xor_eq_zero (l : List (Nat × Nat)) (acc : Nat) :
    l.foldl (fun r p => r ||| (p.1 ^^^ p.2)) acc = 0 ↔
      acc = 0 ∧ ∀ p ∈ l, p.1 = p.2 := by
  induction l generalizing acc with
  | nil => simp
  | cons q l ih =>
      rw [List.foldl_cons, ih]
      rw [nat_lor_eq_zero, Nat.xor_eq_zero]
      constructor
      · rintro ⟨⟨h1, h2⟩, h3⟩
        exact ⟨h1, by simpa [h2] using h3⟩
      · rintro ⟨h1, h2⟩
        exact ⟨⟨h1, h2 q (by simp)⟩, fun p hp => h2 p (by simp [hp])⟩

theorem zip_forall_eq :
    ∀ (a b : List Nat), a.length = b.length →
      ((∀ p ∈ a.zip b, p.1 = p.2) ↔ a = b)
  | [], [], _ => by simp
  | [], _ :: _, h => by simp at h
  | _ :: _, [], h => by simp at h
  | x :: xs, y :: ys, h => by
      have ih := zip_forall_eq xs ys (by simpa using h)
      constructor
      · intro hall
        have hx : x = y := hall (x, y) (by simp)
        have : xs = ys := ih.mp fun p hp => hall p (by simp [hp])
        simp [hx, this]
      · rintro h2
        injection h2 with h2a h2b
        subst h2a; subst h2b
        intro p hp
        rcases List.mem_cons.mp hp with hph | hpt
        · simp [hph]
        · exact (ih.mpr rfl) p hpt

theorem constant_time_eq_iff (a b : List Nat) (h : a.length = b.length) :
    constant_time_eq a b = true ↔ a = b := by
  rw [constant_time_eq, beq_iff_eq, foldl_lor_xor_eq_zero]
  constructor
  · rintro ⟨_, h2⟩
    exact (zip_forall_eq a b h).mp h2
  · intro h2
    exact ⟨rfl, (zip_forall_eq a b h).mpr h2⟩

theorem sha256_length (msg : List Nat) : (sha256 msg).length = 32 := by
  simp [sha256, wordBytes]

theorem compute_auth_response_length (psk challenge : List Nat) :
    (compute_auth_response psk challenge).length = 32 := by
  rw [compute_auth_response, hmacSha256]
  exact sha256_length _

theorem find_map_replace {β : Type} (reg : List (Uuid × β)) (id : Uuid) (c : β)
    (h : reg.any (fun p => p.1 == id) = true) :
    (reg.map fun p => if p.1 == id then (id, c) else p).find? (fun p => p.1 == id) =
      some (id, c) := by
  induction reg with
  | nil => simp at h
  | cons q l ih =>
      rw [List.map_cons]
      cases hq : (q.1 == id) with
      | true => simp
      | false =>
          have h2 : l.any (fun p => p.1 == id) = true := by
            rcases List.any_eq_true.mp h with ⟨x, hx, hpx⟩
            rcases List.mem_cons.mp hx with rfl | hxl
            · rw [hq] at hpx
              exact absurd hpx (by simp)
            · exact List.any_eq_true.mpr ⟨x, hxl, hpx⟩
          simpa [hq] using ih h2

theorem map_fst_replace {β : Type} (reg : List (Uuid × β)) (id : Uuid) (c : β) :
    ((reg.map fun p => if p.1 == id then (id, c) else p).map Prod.fst) =
      reg.map Prod.fst := by
  induction reg with
  | nil => simp
  | cons q l ih =>
      rw [List.map_cons, List.map_cons]
      cases hq : (q.1 == id) with
      | true =>
          have hq2 : q.1 = id := eq_of_beq hq
          simp [ih, hq2]
          intro a b _
          by_cases ha : a = id <;> simp [ha]
      | false =>
          simp [ih]
          intro a b _
          by_cases ha : a = id <;> simp [ha]

theorem find_none_of_any_false {β : Type} (l : List (Uuid × β)) (id : Uuid)
    (h : l.any (fun p => p.1 == id) = false) :
    l.find? (fun p => p.1 == id) = none :=
  List.find?_eq_none.mpr fun x hx => by
    have := List.any_eq_false.mp h x hx
    simpa using this

theorem lookupConn_hmInsert (reg : List (Uuid × ConnId)) (id : Uuid) (c : ConnId) :
    lookupConn (hmInsert reg id c) id = some c := by
  unfold lookupConn hmInsert
  by_cases h : reg.any (fun p => p.1 == id) = true
  · rw [if_pos h, find_map_replace reg id c h]
    rfl
  · have hn := find_none_of_any_false reg id (by rw [Bool.not_eq_true] at h; exact h)
    rw [if_neg h, List.find?_append, hn]
    simp

theorem nodup_hmInsert (reg : List (Uuid × ConnId)) (id : Uuid) (c : ConnId)
    (h : (reg.map Prod.fst).Nodup) :
    ((hmInsert reg id c).map Prod.fst).Nodup := by
  unfold hmInsert
  by_cases ha : reg.any (fun p => p.1 == id) = true
  · rw [if_pos ha, map_fst_replace]
    exact h
  · have hid : ∀ x ∈ reg, ¬(x.1 == id) = true :=
      List.any_eq_false.mp (by rw [Bool.not_eq_true] at ha; exact ha)
    rw [if_neg ha, List.map_append, List.nodup_append]
    refine ⟨h, by simp, ?_⟩
    intro a ha1 ha2
    rcases List.mem_map.mp ha1 with ⟨x, hx, rfl⟩
    have : x.1 = id := by simpa using ha2
    exact hid x hx (by simp [this])


theorem is_trusted_trust_self (s : TrustStore) (id : Uuid) (n : String) (t : Nat) :
    (s.trust id n t).is_trusted id = true := by
  unfold TrustStore.trust
  by_cases h : s.is_trusted id = true
  · rw [if_pos h]
    exact h
  · rw [if_neg h]
    unfold TrustStore.is_trusted
    simp [List.any_append]

theorem is_trusted_postHandshake (st : ManagerState) (pid : Uuid) (pn : String)
    (now : Nat) (c : ConnId) :
    (postHandshakeUpdate st pid pn now c).1.trust.is_trusted pid = true := by
  unfold postHandshakeUpdate
  by_cases h : st.trust.is_trusted pid = true
  · simp only [if_pos h]
    exact h
  · simp only [if_neg h]
    exact is_trusted_trust_self st.trust pid pn now

theorem get_trust_insert (s : TrustStore) (id : Uuid) (n : String) (t : Nat)
    (h : s.is_trusted id = false) :
    (s.trust id n t).get id = some ⟨n, t⟩ := by
  unfold TrustStore.trust
  rw [if_neg (by simp [h])]
  unfold TrustStore.get
  have hn := find_none_of_any_false s.peers id (by simpa [TrustStore.is_trusted] using h)
  simp only [List.find?_append, hn, Option.none_or]
  simp

theorem get_trust_other (s : TrustStore) (id id2 : Uuid) (n : String) (t : Nat)
    (h2 : id2 ≠ id) :
    (s.trust id n t).get id2 = s.get id2 := by
  unfold TrustStore.trust
  by_cases h : s.is_trusted id = true
  · rw [if_pos h]
  · rw [if_neg h]
    unfold TrustStore.get
    have hone : List.find? (fun p => p.1 == id2) [(id, (⟨n, t⟩ : TrustedPeer))] = none := by
      simp only [List.find?_cons, List.find?_nil]
      have : (id == id2) = false := by
        simp only [beq_eq_false_iff_ne, ne_eq]
        exact fun hc => h2 hc.symm
      rw [this]
    simp only [List.find?_append, hone, Option.or_none]

theorem nodup_trust (s : TrustStore) (id : Uuid) (n : String) (t : Nat)
    (h : (s.peers.map Prod.fst).Nodup) :
    ((s.trust id n t).peers.map Prod.fst).Nodup := by
  unfold TrustStore.trust
  by_cases ht : s.is_trusted id = true
  · rw [if_pos ht]
    exact h
  · rw [if_neg ht]
    have ha : s.peers.any (fun p => p.1 == id) = false := by
      rw [Bool.not_eq_true] at ht
      simpa [TrustStore.is_trusted] using ht
    rw [List.map_append, List.nodup_append]
    refine ⟨h, by simp, ?_⟩
    intro a ha1 ha2
    rcases List.mem_map.mp ha1 with ⟨x, hx, rfl⟩
    have hax : x.1 = id := by simpa using ha2
    exact (List.any_eq_false.mp ha) x hx (by simp [hax])

/-! ## Claim theorems -/

/-- C1 (code bug): encoding the unit variants panics instead of producing a
frame.  `toml::to_string` serializes `Ping`/`Pong` as a bare string, which
cannot form a TOML document, so `Message::encode`'s
`expect("message serialization should not fail")` aborts; the round-trip
property therefore fails at `Ping` (and `Pong`), while a struct variant such
as the repository's own `Clipboard` test case does encode. -/
theorem encode_ping_panics :
    Message.encode .Ping = none ∧ Message.encode .Pong = none ∧
    (Message.encode (.Clipboard "hello" 12345)).isSome = true := by
  refine ⟨rfl, rfl, rfl⟩

/-- C2 (corrected): the frame reader enforces no maximum length.  For any
declared `u32` length it allocates a `4 + len` buffer and tries to read the
whole body; a stream that ends early yields an I/O error, never
`InvalidLength`. -/
theorem recv_no_length_cap (b0 b1 b2 b3 : Nat) (rest : List Nat) :
    recvAllocSize (b0 :: b1 :: b2 :: b3 :: rest) = some (4 + beU32 [b0, b1, b2, b3]) ∧
    recvFrame (b0 :: b1 :: b2 :: b3 :: rest) =
      (if beU32 [b0, b1, b2, b3] ≤ rest.length then
        .ok ([b0, b1, b2, b3] ++ rest.take (beU32 [b0, b1, b2, b3]),
             rest.drop (beU32 [b0, b1, b2, b3]))
      else .error .Io) := by
  have h4 : readExact 4 (b0 :: b1 :: b2 :: b3 :: rest) = some ([b0, b1, b2, b3], rest) := by
    unfold readExact
    rw [if_pos (by simp)]
    rfl
  constructor
  · rw [recvAllocSize, h4]
    rfl
  · simp only [recvFrame, h4]
    unfold readExact
    by_cases hl : beU32 [b0, b1, b2, b3] ≤ rest.length
    · rw [if_pos hl, if_pos hl]
    · rw [if_neg hl, if_neg hl]

/-- C2 counterexample: a declared length of 16777217 bytes (one over the
16 MiB cap the claim names) is not rejected as `InvalidLength`; `recv`
allocates a 16777221-byte buffer and fails with an I/O error only because the
stream ends. -/
theorem recv_length_cap_counterexample :
    16777216 < beU32 [1, 0, 0, 1] ∧
    recvFrame [1, 0, 0, 1] = .error .Io ∧
    ¬ recvFrame [1, 0, 0, 1] = .error .InvalidLength ∧
    recvAllocSize [1, 0, 0, 1] = some 16777221 := by
  have h : recvFrame [1, 0, 0, 1] = .error .Io := rfl
  refine ⟨by decide, h, ?_, by decide⟩
  rw [h]
  simp

/-- C3 (corrected): after a successful handshake the peer is trusted and
installed unconditionally — the update equals `TrustStore::trust` (insert when
absent) with no pairing-mode or empty-store condition and no rejection path —
and the dial gate consults only the registry, never the trust store. -/
theorem trust_and_dial_unconditional (st : ManagerState) (pid : Uuid)
    (pname : String) (now : Nat) (conn : ConnId) :
    (postHandshakeUpdate st pid pname now conn).2.1 = true ∧
    (postHandshakeUpdate st pid pname now conn).1.trust = st.trust.trust pid pname now ∧
    (postHandshakeUpdate st pid pname now conn).2.2 = [] ∧
    dialDecision st pid = !(hmContains st.registry pid) := by
    refine ⟨rfl, ?_, rfl, rfl⟩
    unfold postHandshakeUpdate TrustStore.trust
    by_cases h : st.trust.is_trusted pid = true
    · simp [h]
    · simp [h]

/-- C3 counterexample: with a non-empty trust store that does not contain
`u1` (and no pairing mode anywhere in the program), an inbound peer `u1` is
nevertheless trusted and installed rather than rejected, and the dial gate
lets a discovered `u1` through. -/
theorem trust_gating_counterexample :
    storeOther.peers ≠ [] ∧
    storeOther.is_trusted u1 = false ∧
    (postHandshakeUpdate ⟨storeOther, []⟩ u1 "a" 5 1).2.1 = true ∧
    (postHandshakeUpdate ⟨storeOther, []⟩ u1 "a" 5 1).1.trust.is_trusted u1 = true ∧
    dialDecision ⟨storeOther, []⟩ u1 = true := by
  refine ⟨by decide, by decide, rfl, by decide, by decide⟩

/-- C4 (corrected): with mismatched PSKs it is the dialer A that fails
verification of B's response and drops the connection (its manager state
untouched), while the acceptor B performs no verification at all: B's inbound
handshake succeeds, B trusts A and installs the connection — B's trust store
is mutated.  B's connection task later sees the EOF as a receive error and
exits (emitting Disconnected). -/
theorem wrong_psk_behaviour (idA idB : Uuid) (nA nB : String)
    (pskA pskB chal : List Nat) (stA stB : ManagerState) (now : Nat)
    (cA cB : ConnId)
    (h : verify_auth_response pskA chal (compute_auth_response pskB chal) = false) :
    handshake_outbound idA nA pskA chal
        [.Hello idB nB, .Auth (List.replicate 32 0) (compute_auth_response pskB chal)] =
      .error .AuthFailed ∧
    afterHandshake stA (.error .AuthFailed) now cA = (stA, false, []) ∧
    handshake_inbound idB nB pskB [.Hello idA nA, .Auth chal (List.replicate 32 0)] =
      .ok ((idA, nA),
        [.Hello idB nB, .Auth (List.replicate 32 0) (compute_auth_response pskB chal)]) ∧
    (afterHandshake stB
        (handshake_inbound idB nB pskB [.Hello idA nA, .Auth chal (List.replicate 32 0)])
        now cB).1.trust.is_trusted idA = true ∧
    handleInbound (.error .Io) = .disconnected := by
  refine ⟨?_, rfl, rfl, ?_, rfl⟩
  · simp [handshake_outbound, h]
  · exact is_trusted_postHandshake stB idA nA now cB

/-- C4 witness: at PSKs s and t (bytes 115 and 116) and the all-zero
challenge the two HMAC responses differ, so the dialer's verification fails. -/
theorem wrong_psk_behaviour_witness :
    verify_auth_response [115] zeros32 (compute_auth_response [116] zeros32) = false ∧
    handshake_outbound u1 "a" [115] zeros32
        [.Hello u2 "b", .Auth (List.replicate 32 0) (compute_auth_response [116] zeros32)] =
      .error .AuthFailed := by
  have h : verify_auth_response [115] zeros32 (compute_auth_response [116] zeros32) = false := by
    decide
  exact ⟨h,
    (wrong_psk_behaviour u1 u2 "a" "b" [115] [116] zeros32 ⟨⟨[]⟩, []⟩ ⟨⟨[]⟩, []⟩ 7 1 2
      (by simpa [zeros32] using h)).1⟩

/-- C4 counterexample: concretely, with PSK t (byte 116) on the acceptor B,
B's inbound handshake against A's Hello and challenge succeeds — no Auth
verification happens on B — and B's trust store gains A. -/
theorem wrong_psk_counterexample :
    (handshake_inbound u2 "b" [116] [.Hello u1 "a", .Auth zeros32 zeros32]).isOk = true ∧
    (afterHandshake ⟨⟨[]⟩, []⟩
        (handshake_inbound u2 "b" [116] [.Hello u1 "a", .Auth zeros32 zeros32])
        7 1).1.trust.is_trusted u1 = true := by
  refine ⟨rfl, ?_⟩
  have h := is_trusted_postHandshake ⟨⟨[]⟩, []⟩ u1 "a" 7 1
  exact h

/-- C5 (corrected): installing a second connection for a UUID simply
overwrites the registry binding with the newest connection — no UUID
comparison is made and nothing is closed — while the HashMap keyed by UUID
keeps at most one binding per UUID (key uniqueness is preserved). -/
theorem registry_overwrite_spec (st : ManagerState) (pid : Uuid) (pname : String)
    (now : Nat) (conn : ConnId) :
    lookupConn (postHandshakeUpdate st pid pname now conn).1.registry pid = some conn ∧
    (postHandshakeUpdate st pid pname now conn).2.2 = [] ∧
    ((st.registry.map Prod.fst).Nodup →
      ((postHandshakeUpdate st pid pname now conn).1.registry.map Prod.fst).Nodup) := by
  refine ⟨lookupConn_hmInsert st.registry pid conn, rfl, ?_⟩
  intro h
  exact nodup_hmInsert st.registry pid conn h

/-- C5 witness: on a registry already holding connection 1 for `u1`, the
accept path installs connection 2 as the unique binding for `u1`. -/
theorem registry_overwrite_spec_witness :
    lookupConn (postHandshakeUpdate ⟨⟨[]⟩, [(u1, 1)]⟩ u1 "a" 5 2).1.registry u1 = some 2 ∧
    ((postHandshakeUpdate ⟨⟨[]⟩, [(u1, 1)]⟩ u1 "a" 5 2).1.registry.map Prod.fst).Nodup :=
  ⟨(registry_overwrite_spec ⟨⟨[]⟩, [(u1, 1)]⟩ u1 "a" 5 2).1,
   (registry_overwrite_spec ⟨⟨[]⟩, [(u1, 1)]⟩ u1 "a" 5 2).2.2 (by decide)⟩

/-- C5 counterexample: with local id `u2` and remote id `u1` (remote compares
smaller by raw bytes, so the claim says the dialed connection 1 must survive
and the accepted one be closed), the accept path replaces the entry with the
accepted connection 2 and closes nothing. -/
theorem dedup_rule_counterexample :
    u1.bytes ≠ u2.bytes ∧
    u1.bytes.getD 15 0 < u2.bytes.getD 15 0 ∧
    u1.bytes.take 15 = u2.bytes.take 15 ∧
    (postHandshakeUpdate ⟨⟨[]⟩, [(u1, 1)]⟩ u1 "a" 5 2).1.registry = [(u1, 2)] ∧
    (postHandshakeUpdate ⟨⟨[]⟩, [(u1, 1)]⟩ u1 "a" 5 2).2.2 = [] := by
  refine ⟨by decide, by decide, by decide, by decide, rfl⟩

/-- C6 (confirmed): for every PSK (as its UTF-8 bytes), challenge and 32-byte
candidate response, `verify_auth_response` accepts exactly when the response
equals `compute_auth_response` (HMAC-SHA256 of the challenge under the key),
the comparison being the OR-accumulated XOR of `constant_time_eq`. -/
theorem verify_auth_response_iff (psk challenge response : List Nat)
    (h : response.length = 32) :
    verify_auth_response psk challenge response = true ↔
      response = compute_auth_response psk challenge := by
  unfold verify_auth_response
  rw [constant_time_eq_iff _ _ (by rw [compute_auth_response_length, h])]
  exact eq_comm

/-- C6 witness: the equivalence instantiated at PSK s, the all-zero challenge
and the all-zero candidate response. -/
theorem verify_auth_response_iff_witness :
    zeros32.length = 32 ∧
    (verify_auth_response [115] zeros32 zeros32 = true ↔
      zeros32 = compute_auth_response [115] zeros32) :=
  ⟨by simp [zeros32], verify_auth_response_iff [115] zeros32 zeros32 (by simp [zeros32])⟩

/-- C7 (code bug): the steady-state loop emits exactly one event per
Clipboard frame, ignores Pong and spurious Hello/Auth frames, and exits only
on a receive error — but a Ping is answered through `send(&Message::Pong)`,
whose `Message::encode` cannot serialize the unit variant, so the task panics
instead of sending the Pong the claim (and the code's own match arm)
intends. -/
theorem run_loop_frame_handling :
    handleInbound (.ok .Ping) = .panicked ∧
    (∀ c t, handleInbound (.ok (.Clipboard c t)) = .emitClipboard c t) ∧
    handleInbound (.ok .Pong) = .ignored ∧
    (∀ id n, handleInbound (.ok (.Hello id n)) = .ignored) ∧
    (∀ c r, handleInbound (.ok (.Auth c r)) = .ignored) ∧
    (∀ e, handleInbound (.error e) = .disconnected) :=
  ⟨rfl, fun _ _ => rfl, rfl, fun _ _ => rfl, fun _ _ => rfl, fun _ => rfl⟩

/-- C8 (confirmed): `TrustStore::trust` is a no-op when the id is present
(never replacing name or first_seen); when absent it inserts exactly the one
entry with the current timestamp, leaves every other id's entry unchanged,
and preserves uniqueness of ids. -/
theorem trust_store_trust_spec (s : TrustStore) (id : Uuid) (name : String)
    (now : Nat) :
    (s.is_trusted id = true → s.trust id name now = s) ∧
    (s.is_trusted id = false →
      (s.trust id name now).get id = some ⟨name, now⟩) ∧
    (∀ id2, id2 ≠ id → (s.trust id name now).get id2 = s.get id2) ∧
    ((s.peers.map Prod.fst).Nodup → ((s.trust id name now).peers.map Prod.fst).Nodup) := by
  refine ⟨?_, ?_, ?_, ?_⟩
  · intro h
    unfold TrustStore.trust
    rw [if_pos h]
  · intro h
    exact get_trust_insert s id name now h
  · intro id2 h2
    exact get_trust_other s id id2 name now h2
  · intro h
    exact nodup_trust s id name now h

/-- C8 witness: on a store containing `u1`, trusting `u1` again changes
nothing; trusting the absent `u2` inserts it with the given timestamp. -/
theorem trust_store_trust_spec_witness :
    storeHasU1.trust u1 "x" 7 = storeHasU1 ∧
    (storeHasU1.trust u2 "x" 7).get u2 = some ⟨"x", 7⟩ :=
  ⟨(trust_store_trust_spec storeHasU1 u1 "x" 7).1 (by decide),
   (trust_store_trust_spec storeHasU1 u2 "x" 7).2.1 (by decide)⟩

/-- C9 (confirmed): the browse loop emits a peer only when the id TXT record
parses as a UUID that differs from the local instance id and has not been
seen before; an event whose id parses to the local id is always dropped. -/
theorem discovery_emit_spec (ownId : Uuid) (seen : List Uuid) (info : ServiceInfo) :
    (∀ p, (handleResolved ownId seen info).2 = some p →
      ∃ s, lookupProp info.properties "id" = some s ∧ parseUuid s = some p.id ∧
        p.id ≠ ownId ∧ seen.contains p.id = false) ∧
    (∀ s, lookupProp info.properties "id" = some s → parseUuid s = some ownId →
      (handleResolved ownId seen info).2 = none) := by
  constructor
  · intro p hp
    unfold handleResolved at hp
    split at hp
    · exact absurd hp (by simp)
    · rename_i s hl
      split at hp
      · exact absurd hp (by simp)
      · rename_i id hu
        split at hp
        · exact absurd hp (by simp)
        · rename_i hcond
          split at hp
          · exact absurd hp (by simp)
          · rename_i ip ips haddr
            have hp2 : some (⟨id, firstSegment info.fullname,
                (ip, info.port)⟩ : Peer) = some p := hp
            have hp3 := Option.some.inj hp2
            subst hp3
            rw [Bool.or_eq_true, not_or, Bool.not_eq_true, Bool.not_eq_true] at hcond
            refine ⟨s, hl, hu, ?_, hcond.2⟩
            intro hc
            exact (beq_eq_false_iff_ne.mp hcond.1) hc
  · intro s hl hparse
    simp [handleResolved, hl, hparse]

/-- C9 witness: a resolved event advertising `u1` is emitted on a host with
id `u2` and empty seen-set, and the same event is dropped on a host whose own
id is `u1`. -/
theorem discovery_emit_spec_witness :
    (∃ s, lookupProp infoGood.properties "id" = some s ∧ parseUuid s = some peerGood.id ∧
      peerGood.id ≠ u2 ∧ ([] : List Uuid).contains peerGood.id = false) ∧
    (handleResolved u1 [] infoGood).2 = none :=
  ⟨(discovery_emit_spec u2 [] infoGood).1 peerGood (by decide),
   (discovery_emit_spec u1 [] infoGood).2 "00000000-0000-0000-0000-000000000001"
     (by decide) (by decide)⟩

/-- C10 (confirmed): the inbound handshake succeeds for any well-formed Hello
followed by any well-formed Auth — no verification of the remote's PSK
possession occurs — and the accept task then installs the peer as trusted and
live. -/
theorem inbound_no_psk_check (ourId tid : Uuid) (ourName tname : String)
    (psk c r : List Nat) (st : ManagerState) (now : Nat) (conn : ConnId) :
    handshake_inbound ourId ourName psk [.Hello tid tname, .Auth c r] =
      .ok ((tid, tname),
        [.Hello ourId ourName,
         .Auth (List.replicate 32 0) (compute_auth_response psk c)]) ∧
    (afterHandshake st (handshake_inbound ourId ourName psk [.Hello tid tname, .Auth c r])
        now conn).2.1 = true ∧
    (afterHandshake st (handshake_inbound ourId ourName psk [.Hello tid tname, .Auth c r])
        now conn).1.trust.is_trusted tid = true ∧
    lookupConn (afterHandshake st
        (handshake_inbound ourId ourName psk [.Hello tid tname, .Auth c r])
        now conn).1.registry tid = some conn := by
  refine ⟨rfl, rfl, ?_, ?_⟩
  · exact is_trusted_postHandshake st tid tname now conn
  · exact lookupConn_hmInsert st.registry tid conn
